import Mathlib

/-!
Verification of the speech-queue scheduler in `src/app/page.tsx`.

The component owns a list of queue items and an `isPaused` flag.  The user
handlers (`handleAddToQueue`, `handleStop`, `handlePauseResume`,
`handleClearCompleted`) mutate this state; a reactive effect (`runEffect`,
the `useEffect` over `[queue, isPaused]`) runs after every state mutation
and dispatches the earliest pending item when nothing is speaking and
playback is not paused.  `speak` always calls `cancel()` on the engine
before `speak(utterance)`, so at most one utterance is live in the engine
at a time; we track it in the `live` field as `(item id, started flag)`.
The utterance callbacks (`onStart`, `onEnd`, `onError`) act on that live
utterance and feed back into the queue, after which the reactive effect
runs again.  `cancel()` does not unregister the cancelled utterance's
closures: its trailing end/error event may still arrive later and runs
the same handlers, which rewrite the queue item by id; the ids of
cancelled utterances with callbacks still pending are tracked in the
`stale` field and their trailing events are `onEndStale`/`onErrorStale`.
-/

inductive RequestStatus where
  | pending
  | speaking
  | completed
  | error
  | cancelled
deriving DecidableEq, Repr

structure QueueItem where
  id : Nat
  text : String
  voiceId : String
  rate : Rat
  pitch : Rat
  volume : Rat
  status : RequestStatus
  error : Option String := none
deriving DecidableEq, Repr

structure SchedState where
  queue : List QueueItem
  isPaused : Bool
  live : Option (Nat × Bool)
  stale : List Nat := []
  nextId : Nat
deriving DecidableEq, Repr

def RequestStatus.isSpeakingB : RequestStatus → Bool
  | .speaking => true
  | _ => false

def RequestStatus.isPendingB : RequestStatus → Bool
  | .pending => true
  | _ => false

def RequestStatus.isTerminalB : RequestStatus → Bool
  | .completed => true
  | .error => true
  | .cancelled => true
  | _ => false

/-- JavaScript `text.trim()`: strip whitespace from both ends. -/
def jsTrim (s : String) : String :=
  ⟨((s.data.dropWhile Char.isWhitespace).reverse.dropWhile Char.isWhitespace).reverse⟩

/-- `speechSynthesis.cancel()`: the cancelled utterance's `onend`/`onerror`
closures stay registered and may still fire afterwards, so cancelling the
live utterance moves its item id into the `stale` set instead of erasing
its callbacks. -/
def cancelLive (live : Option (Nat × Bool)) (stale : List Nat) : List Nat :=
  match live with
  | some (j, _) => j :: stale
  | none => stale

/-- The reactive dispatch effect (`useEffect` over `[queue, isPaused]`,
`page.tsx` lines 132-146): when no item is speaking and not paused, the
earliest pending item is handed to `speak`, which cancels any live engine
utterance (whose end/error callback may still fire later, hence `stale`)
and submits a new, not-yet-started one. -/
def runEffect (s : SchedState) : SchedState :=
  if s.queue.any (fun a => a.status.isSpeakingB) || s.isPaused then s
  else
    match s.queue.find? (fun a => a.status.isPendingB) with
    | some next => { s with live := some (next.id, false),
                            stale := cancelLive s.live s.stale }
    | none => s

/-- `handleAddToQueue` (`page.tsx` lines 148-165): trim the text, silently
drop empty input, otherwise append a fresh pending item carrying the
given voice id, rate, pitch and volume verbatim. -/
def handleAddToQueue (text voiceId : String) (rate pitch volume : Rat)
    (s : SchedState) : SchedState :=
  if (jsTrim text).isEmpty then s
  else
    runEffect { s with
      queue := s.queue ++ [{ id := s.nextId, text := jsTrim text, voiceId := voiceId,
                             rate := rate, pitch := pitch, volume := volume,
                             status := .pending }],
      nextId := s.nextId + 1 }

def cancelSpeaking (a : QueueItem) : QueueItem :=
  if a.status.isSpeakingB then { a with status := .cancelled } else a

/-- `handleStop` (`page.tsx` lines 171-183): cancel the engine (the
cancelled utterance's trailing callback may still fire, hence `stale`),
mark every speaking item cancelled and clear the paused flag. -/
def handleStop (s : SchedState) : SchedState :=
  runEffect { s with queue := s.queue.map cancelSpeaking, live := none,
                     stale := cancelLive s.live s.stale, isPaused := false }

inductive EngineCmd where
  | pause
  | resume
deriving DecidableEq, Repr

/-- `handlePauseResume` (`page.tsx` lines 185-197): toggle driven by the
engine flags; returns the new state and the engine command issued. -/
def handlePauseResume (engSpeaking engPaused : Bool) (s : SchedState) :
    SchedState × Option EngineCmd :=
  if engSpeaking && !engPaused then (runEffect { s with isPaused := true }, some .pause)
  else if engPaused then (runEffect { s with isPaused := false }, some .resume)
  else (s, none)

def keepInClear (a : QueueItem) : Bool :=
  a.status.isPendingB || a.status.isSpeakingB

/-- `handleClearCompleted` (`page.tsx` lines 199-201): keep only pending
and speaking items. -/
def handleClearCompleted (s : SchedState) : SchedState :=
  runEffect { s with queue := s.queue.filter keepInClear }

def setStatusOf (i : Nat) (st : RequestStatus) (a : QueueItem) : QueueItem :=
  if a.id = i then { a with status := st } else a

/-- `utterance.onstart` (`page.tsx` lines 98-102): fires once for the live
not-yet-started utterance and marks its item speaking. -/
def onStart (s : SchedState) : SchedState :=
  match s.live with
  | some (i, false) =>
      runEffect { s with queue := s.queue.map (setStatusOf i .speaking),
                         live := some (i, true) }
  | _ => s

/-- `utterance.onend` (`page.tsx` lines 104-114): mark the live utterance's
item cancelled when the engine still reports speaking (stale completion),
else completed; drop the utterance and clear the paused flag. -/
def onEnd (engineSpeaking : Bool) (s : SchedState) : SchedState :=
  match s.live with
  | some (i, _) =>
      runEffect { s with
        queue := s.queue.map
          (setStatusOf i (if engineSpeaking then .cancelled else .completed)),
        live := none, isPaused := false }
  | none => s

/-- `utterance.onerror` (`page.tsx` lines 116-126): mark the live
utterance's item errored with the reported reason (or a placeholder),
drop the utterance and clear the paused flag. -/
def onError (reason : Option String) (s : SchedState) : SchedState :=
  match s.live with
  | some (i, _) =>
      runEffect { s with
        queue := s.queue.map (fun a =>
          if a.id = i then
            { a with status := .error, error := some (reason.getD "Unknown error") }
          else a),
        live := none, isPaused := false }
  | none => s

/-- Trailing `onend` of an utterance that was cancelled by `cancel()`:
its closure (`page.tsx` lines 104-114) is still registered and runs
unchanged when the event arrives, rewriting the item with its id to
cancelled or completed (by the live engine flag) and clearing paused. -/
def onEndStale (i : Nat) (engineSpeaking : Bool) (s : SchedState) : SchedState :=
  if i ∈ s.stale then
    runEffect { s with
      queue := s.queue.map
        (setStatusOf i (if engineSpeaking then .cancelled else .completed)),
      stale := s.stale.erase i, isPaused := false }
  else s

/-- Trailing `onerror` of an utterance that was cancelled by `cancel()`:
its closure (`page.tsx` lines 116-126) is still registered and runs
unchanged when the event arrives, rewriting the item with its id to
errored and clearing paused. -/
def onErrorStale (i : Nat) (reason : Option String) (s : SchedState) : SchedState :=
  if i ∈ s.stale then
    runEffect { s with
      queue := s.queue.map (fun a =>
        if a.id = i then
          { a with status := .error, error := some (reason.getD "Unknown error") }
        else a),
      stale := s.stale.erase i, isPaused := false }
  else s

/-- Events of the scheduler: the user commands plus the engine callbacks,
both of the live utterance and the trailing ones of cancelled utterances
(the engine flag read by `onend` is the event's payload). -/
inductive Event where
  | enqueue (text voiceId : String) (rate pitch volume : Rat)
  | stop
  | pauseResume (engSpeaking engPaused : Bool)
  | clearCompleted
  | engStart
  | engEnd (engineSpeaking : Bool)
  | engError (reason : Option String)
  | engEndStale (i : Nat) (engineSpeaking : Bool)
  | engErrorStale (i : Nat) (reason : Option String)

/-- User commands, as opposed to engine callbacks. -/
def Event.isUserCmdB : Event → Bool
  | .enqueue _ _ _ _ _ => true
  | .stop => true
  | .pauseResume _ _ => true
  | .clearCompleted => true
  | _ => false

def step : Event → SchedState → SchedState
  | .enqueue t v r p vol, s => handleAddToQueue t v r p vol s
  | .stop, s => handleStop s
  | .pauseResume es ep, s => (handlePauseResume es ep s).1
  | .clearCompleted, s => handleClearCompleted s
  | .engStart, s => onStart s
  | .engEnd b, s => onEnd b s
  | .engError r, s => onError r s
  | .engEndStale i b, s => onEndStale i b s
  | .engErrorStale i r, s => onErrorStale i r s

/-- Startup state: empty queue, not paused (`page.tsx` lines 37-38). -/
def initState : SchedState :=
  { queue := [], isPaused := false, live := none, stale := [], nextId := 0 }

def runFrom (s : SchedState) : List Event → SchedState
  | [] => s
  | e :: evs => runFrom (step e s) evs

def Reachable (s : SchedState) : Prop :=
  ∃ evs, runFrom initState evs = s

/-- Status of the item with a given id, if present. -/
def statusOf (s : SchedState) (i : Nat) : Option RequestStatus :=
  (s.queue.find? (fun a => a.id == i)).map QueueItem.status

def speakingCount (s : SchedState) : Nat :=
  s.queue.countP (fun a => a.status.isSpeakingB)

theorem isSpeakingB_eq_true {st : RequestStatus} :
    st.isSpeakingB = true ↔ st = .speaking := by
  cases st <;> simp [RequestStatus.isSpeakingB]

theorem isPendingB_eq_true {st : RequestStatus} :
    st.isPendingB = true ↔ st = .pending := by
  cases st <;> simp [RequestStatus.isPendingB]

theorem keepInClear_eq_true {a : QueueItem} :
    keepInClear a = true ↔ (a.status = .pending ∨ a.status = .speaking) := by
  cases h : a.status <;> simp [keepInClear, h, RequestStatus.isPendingB, RequestStatus.isSpeakingB]

theorem runEffect_queue (s : SchedState) : (runEffect s).queue = s.queue := by
  unfold runEffect
  split
  · rfl
  · split <;> rfl

theorem runEffect_isPaused (s : SchedState) : (runEffect s).isPaused = s.isPaused := by
  unfold runEffect
  split
  · rfl
  · split <;> rfl

theorem runEffect_nextId (s : SchedState) : (runEffect s).nextId = s.nextId := by
  unfold runEffect
  split
  · rfl
  · split <;> rfl

theorem runEffect_live (s : SchedState) :
    (runEffect s).live = s.live ∨
      ∃ p, s.queue.find? (fun a => a.status.isPendingB) = some p ∧
        (runEffect s).live = some (p.id, false) ∧
        (∀ a ∈ s.queue, a.status ≠ .speaking) ∧ s.isPaused = false := by
  unfold runEffect
  split
  · exact Or.inl rfl
  · next hguard =>
    rw [Bool.or_eq_true, not_or] at hguard
    obtain ⟨hany, hpaused⟩ := hguard
    split
    · next p hp =>
      refine Or.inr ⟨p, hp, rfl, ?_, by simpa using hpaused⟩
      intro a ha hst
      exact hany (List.any_eq_true.mpr ⟨a, ha, isSpeakingB_eq_true.mpr hst⟩)
    · exact Or.inl rfl

theorem runEffect_dispatch (s : SchedState) (p : QueueItem)
    (h : ∀ a ∈ s.queue, a.status ≠ .speaking) (hp : s.isPaused = false)
    (hf : s.queue.find? (fun a => a.status.isPendingB) = some p) :
    (runEffect s).live = some (p.id, false) := by
  have hany : s.queue.any (fun a => a.status.isSpeakingB) = false := by
    rw [← Bool.not_eq_true, List.any_eq_true]
    rintro ⟨a, ha, hsp⟩
    exact h a ha (isSpeakingB_eq_true.mp hsp)
  unfold runEffect
  rw [hany, hp, hf]
  simp

theorem find?_append_q (p : QueueItem → Bool) (l₁ l₂ : List QueueItem) :
    (l₁ ++ l₂).find? p = match l₁.find? p with
      | some a => some a
      | none => l₂.find? p := by
  induction l₁ with
  | nil => simp
  | cons a l ih =>
      cases hpa : p a with
      | true =>
          rw [List.cons_append, List.find?_cons_of_pos _ hpa, List.find?_cons_of_pos _ hpa]
      | false =>
          rw [List.cons_append, List.find?_cons_of_neg _ (by simp [hpa]),
            List.find?_cons_of_neg _ (by simp [hpa]), ih]

theorem find?_map_id (f : QueueItem → QueueItem) (hf : ∀ a, (f a).id = a.id)
    (l : List QueueItem) (i : Nat) :
    (l.map f).find? (fun a => a.id == i) = (l.find? (fun a => a.id == i)).map f := by
  induction l with
  | nil => simp
  | cons a l ih =>
      simp only [List.map_cons, List.find?]
      rw [hf a]
      cases hpa : ((a.id == i : Bool)) with
      | true => simp [hpa]
      | false => simp [hpa, ih]

theorem mem_id_inj {l : List QueueItem} (hn : (l.map QueueItem.id).Nodup)
    {a b : QueueItem} (ha : a ∈ l) (hb : b ∈ l) (hid : a.id = b.id) : a = b := by
  induction l with
  | nil => cases ha
  | cons c l ih =>
      rw [List.map_cons, List.nodup_cons] at hn
      rcases List.mem_cons.mp ha with ha1 | ha2
      · rcases List.mem_cons.mp hb with hb1 | hb2
        · rw [ha1, hb1]
        · exfalso
          apply hn.1
          rw [ha1] at hid
          rw [hid]
          exact List.mem_map_of_mem QueueItem.id hb2
      · rcases List.mem_cons.mp hb with hb1 | hb2
        · exfalso
          apply hn.1
          rw [hb1] at hid
          rw [← hid]
          exact List.mem_map_of_mem QueueItem.id ha2
        · exact ih hn.2 ha2 hb2

theorem find?_id_eq_some_of_mem {l : List QueueItem}
    (hn : (l.map QueueItem.id).Nodup) {a : QueueItem} {i : Nat}
    (ha : a ∈ l) (hid : a.id = i) :
    l.find? (fun b => b.id == i) = some a := by
  induction l with
  | nil => cases ha
  | cons c l ih =>
      rw [List.map_cons, List.nodup_cons] at hn
      rcases List.mem_cons.mp ha with ha1 | ha2
      · subst ha1
        exact List.find?_cons_of_pos _ (by simp [hid])
      · have hci : ¬ ((c.id == i : Bool)) = true := by
          simp only [beq_iff_eq]
          intro hc
          apply hn.1
          rw [hc, ← hid]
          exact List.mem_map_of_mem QueueItem.id ha2
        calc (c :: l).find? (fun b => b.id == i)
            = l.find? (fun b => b.id == i) := List.find?_cons_of_neg _ hci
          _ = some a := ih hn.2 ha2

theorem countP_speaking_le_one {l : List QueueItem}
    (hn : (l.map QueueItem.id).Nodup)
    (h : ∀ a ∈ l, ∀ b ∈ l, a.status = .speaking → b.status = .speaking → a.id = b.id) :
    l.countP (fun a => a.status.isSpeakingB) ≤ 1 := by
  induction l with
  | nil => simp
  | cons a l ih =>
      rw [List.map_cons, List.nodup_cons] at hn
      cases hpa : a.status.isSpeakingB with
      | true =>
          have h1 : (a :: l).countP (fun b => b.status.isSpeakingB) =
              l.countP (fun b => b.status.isSpeakingB) + 1 :=
            List.countP_cons_of_pos _ _ hpa
          have hzero : l.countP (fun b => b.status.isSpeakingB) = 0 := by
            rw [List.countP_eq_zero]
            intro b hb hsb
            have hid := h b (List.mem_cons_of_mem a hb) a (List.mem_cons_self a l)
              (isSpeakingB_eq_true.mp hsb) (isSpeakingB_eq_true.mp hpa)
            apply hn.1
            rw [← hid]
            exact List.mem_map_of_mem QueueItem.id hb
          rw [h1, hzero]
      | false =>
          have h1 : (a :: l).countP (fun b => b.status.isSpeakingB) =
              l.countP (fun b => b.status.isSpeakingB) :=
            List.countP_cons_of_neg _ _ (by simp [hpa])
          rw [h1]
          exact ih hn.2 fun b hb c hc hsb hsc =>
            h b (List.mem_cons_of_mem a hb) c (List.mem_cons_of_mem a hc) hsb hsc

theorem setStatusOf_id (i : Nat) (st : RequestStatus) (a : QueueItem) :
    (setStatusOf i st a).id = a.id := by
  unfold setStatusOf
  split <;> rfl

theorem setStatusOf_status (i : Nat) (st : RequestStatus) (a : QueueItem) :
    (setStatusOf i st a).status = if a.id = i then st else a.status := by
  unfold setStatusOf
  split <;> simp_all

theorem cancelSpeaking_id (a : QueueItem) : (cancelSpeaking a).id = a.id := by
  unfold cancelSpeaking
  split <;> rfl

theorem cancelSpeaking_not_speaking (a : QueueItem) :
    (cancelSpeaking a).status ≠ .speaking := by
  unfold cancelSpeaking
  split
  · simp
  · next h => exact fun hc => h (isSpeakingB_eq_true.mpr hc)

theorem map_id_preserved (f : QueueItem → QueueItem) (hf : ∀ a, (f a).id = a.id)
    (l : List QueueItem) : (l.map f).map QueueItem.id = l.map QueueItem.id := by
  induction l with
  | nil => rfl
  | cons a l ih => simp [hf, ih]

theorem map_ids_lt (q : List QueueItem) (n : Nat) (f : QueueItem → QueueItem)
    (hf : ∀ a, (f a).id = a.id) (hA : ∀ a ∈ q, a.id < n) :
    ∀ a ∈ q.map f, a.id < n := by
  intro a' ha'
  obtain ⟨a, ha, rfl⟩ := List.mem_map.mp ha'
  rw [hf]
  exact hA a ha

theorem map_speaking_inj (q : List QueueItem) (f : QueueItem → QueueItem)
    (hfid : ∀ a, (f a).id = a.id)
    (hfsp : ∀ a, (f a).status = .speaking → a.status = .speaking)
    (hC : ∀ a ∈ q, ∀ b ∈ q, a.status = .speaking → b.status = .speaking → a.id = b.id) :
    ∀ a ∈ q.map f, ∀ b ∈ q.map f,
      a.status = .speaking → b.status = .speaking → a.id = b.id := by
  intro a' ha' b' hb' hsa hsb
  obtain ⟨a, ha, rfl⟩ := List.mem_map.mp ha'
  obtain ⟨b, hb, rfl⟩ := List.mem_map.mp hb'
  rw [hfid, hfid]
  exact hC a ha b hb (hfsp a hsa) (hfsp b hsb)

theorem nodup_append_singleton {l : List Nat} {x : Nat} (h : l.Nodup) (hx : x ∉ l) :
    (l ++ [x]).Nodup := by
  rw [List.nodup_append]
  exact ⟨h, List.nodup_singleton x,
    fun a ha hmem => hx (by rwa [List.mem_singleton.mp hmem] at ha)⟩

/-- The inductive invariant of the scheduler: ids are fresh and distinct,
speaking items agree on their id (so there is at most one), nothing is
speaking while the live engine utterance has not started yet, and whenever
nothing speaks and playback is not paused the live utterance is the
earliest pending item. -/
def SchedInv (s : SchedState) : Prop :=
  (∀ a ∈ s.queue, a.id < s.nextId) ∧
  (s.queue.map QueueItem.id).Nodup ∧
  (∀ a ∈ s.queue, ∀ b ∈ s.queue,
      a.status = .speaking → b.status = .speaking → a.id = b.id) ∧
  (∀ i, s.live = some (i, false) → ∀ a ∈ s.queue, a.status ≠ .speaking) ∧
  (∀ p : QueueItem, (∀ a ∈ s.queue, a.status ≠ .speaking) → s.isPaused = false →
      s.queue.find? (fun a => a.status.isPendingB) = some p →
      s.live = some (p.id, false))

theorem runEffect_inv (s : SchedState)
    (hA : ∀ a ∈ s.queue, a.id < s.nextId)
    (hB : (s.queue.map QueueItem.id).Nodup)
    (hC : ∀ a ∈ s.queue, ∀ b ∈ s.queue,
      a.status = .speaking → b.status = .speaking → a.id = b.id)
    (hD1 : ∀ i, s.live = some (i, false) → ∀ a ∈ s.queue, a.status ≠ .speaking) :
    SchedInv (runEffect s) := by
  refine ⟨?_, ?_, ?_, ?_, ?_⟩
  · rw [runEffect_queue, runEffect_nextId]
    exact hA
  · rw [runEffect_queue]
    exact hB
  · rw [runEffect_queue]
    exact hC
  · intro i hl
    rw [runEffect_queue]
    rcases runEffect_live s with heq | ⟨p, hfind, heq, hnosp, _⟩
    · rw [heq] at hl
      exact hD1 i hl
    · exact hnosp
  · intro p hnosp hpaused hfind
    rw [runEffect_queue] at hnosp hfind
    rw [runEffect_isPaused] at hpaused
    exact runEffect_dispatch s p hnosp hpaused hfind

theorem inv_initState : SchedInv initState := by
  refine ⟨?_, ?_, ?_, ?_, ?_⟩ <;> simp [initState]

theorem schedInv_handleAddToQueue (t v : String) (r p vol : Rat) (s : SchedState)
    (h : SchedInv s) : SchedInv (handleAddToQueue t v r p vol s) := by
  obtain ⟨hA, hB, hC, hD1, hE⟩ := h
  unfold handleAddToQueue
  split
  · exact ⟨hA, hB, hC, hD1, hE⟩
  · apply runEffect_inv
    · intro a ha
      rcases List.mem_append.mp ha with ha1 | ha1
      · exact Nat.lt_succ_of_lt (hA a ha1)
      · rw [List.mem_singleton.mp ha1]
        exact Nat.lt_succ_self _
    · rw [List.map_append]
      refine nodup_append_singleton hB ?_
      intro hmem
      obtain ⟨b, hb, hbid⟩ := List.mem_map.mp hmem
      exact absurd hbid (Nat.ne_of_lt (hA b hb))
    · intro a ha b hb hsa hsb
      rcases List.mem_append.mp ha with ha1 | ha1
      · rcases List.mem_append.mp hb with hb1 | hb1
        · exact hC a ha1 b hb1 hsa hsb
        · rw [List.mem_singleton.mp hb1] at hsb
          exact absurd hsb (by simp)
      · rw [List.mem_singleton.mp ha1] at hsa
        exact absurd hsa (by simp)
    · intro i hl
      have hnosp := hD1 i hl
      intro b hb
      rcases List.mem_append.mp hb with hb1 | hb1
      · exact hnosp b hb1
      · rw [List.mem_singleton.mp hb1]
        simp

theorem schedInv_handleStop (s : SchedState) (h : SchedInv s) :
    SchedInv (handleStop s) := by
  obtain ⟨hA, hB, hC, _, _⟩ := h
  unfold handleStop
  apply runEffect_inv
  · exact map_ids_lt _ _ _ cancelSpeaking_id hA
  · rw [map_id_preserved _ cancelSpeaking_id]
    exact hB
  · intro a ha b hb hsa _
    obtain ⟨a0, _, rfl⟩ := List.mem_map.mp ha
    exact absurd hsa (cancelSpeaking_not_speaking a0)
  · intro i hl
    exact Option.noConfusion hl

theorem schedInv_handlePauseResume (es ep : Bool) (s : SchedState) (h : SchedInv s) :
    SchedInv (handlePauseResume es ep s).1 := by
  obtain ⟨hA, hB, hC, hD1, hE⟩ := h
  unfold handlePauseResume
  split
  · exact runEffect_inv _ hA hB hC hD1
  · split
    · exact runEffect_inv _ hA hB hC hD1
    · exact ⟨hA, hB, hC, hD1, hE⟩

theorem schedInv_handleClearCompleted (s : SchedState) (h : SchedInv s) :
    SchedInv (handleClearCompleted s) := by
  obtain ⟨hA, hB, hC, hD1, _⟩ := h
  unfold handleClearCompleted
  apply runEffect_inv
  · intro a ha
    exact hA a (List.mem_of_mem_filter ha)
  · exact List.Nodup.sublist (List.Sublist.map QueueItem.id (List.filter_sublist _)) hB
  · intro a ha b hb hsa hsb
    exact hC a (List.mem_of_mem_filter ha) b (List.mem_of_mem_filter hb) hsa hsb
  · intro i hl
    have hnosp := hD1 i hl
    intro b hb
    exact hnosp b (List.mem_of_mem_filter hb)

theorem schedInv_onStart (s : SchedState) (h : SchedInv s) : SchedInv (onStart s) := by
  obtain ⟨hA, hB, hC, hD1, hE⟩ := h
  unfold onStart
  split
  · next i hlive =>
      have hnosp := hD1 i hlive
      apply runEffect_inv
      · exact map_ids_lt _ _ _ (setStatusOf_id i .speaking) hA
      · rw [map_id_preserved _ (setStatusOf_id i .speaking)]
        exact hB
      · intro x hx y hy hsx hsy
        obtain ⟨x0, hx0, rfl⟩ := List.mem_map.mp hx
        obtain ⟨y0, hy0, rfl⟩ := List.mem_map.mp hy
        rw [setStatusOf_id, setStatusOf_id]
        rw [setStatusOf_status] at hsx hsy
        by_cases hxi : x0.id = i
        · by_cases hyi : y0.id = i
          · rw [hxi, hyi]
          · rw [if_neg hyi] at hsy
            exact absurd hsy (hnosp y0 hy0)
        · rw [if_neg hxi] at hsx
          exact absurd hsx (hnosp x0 hx0)
      · intro j hl
        simp at hl
  · exact ⟨hA, hB, hC, hD1, hE⟩

theorem schedInv_onEnd (b : Bool) (s : SchedState) (h : SchedInv s) :
    SchedInv (onEnd b s) := by
  obtain ⟨hA, hB, hC, hD1, hE⟩ := h
  unfold onEnd
  split
  · apply runEffect_inv
    · exact map_ids_lt _ _ _ (setStatusOf_id _ _) hA
    · rw [map_id_preserved _ (setStatusOf_id _ _)]
      exact hB
    · refine map_speaking_inj _ _ (setStatusOf_id _ _) ?_ hC
      intro a hsa
      rw [setStatusOf_status] at hsa
      split at hsa
      · cases b <;> simp_all
      · exact hsa
    · intro j hl
      exact Option.noConfusion hl
  · exact ⟨hA, hB, hC, hD1, hE⟩

theorem schedInv_onError (reason : Option String) (s : SchedState) (h : SchedInv s) :
    SchedInv (onError reason s) := by
  obtain ⟨hA, hB, hC, hD1, hE⟩ := h
  unfold onError
  split
  · next i br hlive =>
      have hfid : ∀ a : QueueItem,
          (if a.id = i then
            { a with status := RequestStatus.error,
                     error := some (reason.getD "Unknown error") }
          else a).id = a.id := by
        intro a
        split <;> rfl
      apply runEffect_inv
      · exact map_ids_lt _ _ _ hfid hA
      · rw [map_id_preserved _ hfid]
        exact hB
      · refine map_speaking_inj _ _ hfid ?_ hC
        intro a hsa
        split at hsa
        · simp_all
        · exact hsa
      · intro j hl
        exact Option.noConfusion hl
  · exact ⟨hA, hB, hC, hD1, hE⟩

theorem schedInv_onEndStale (i : Nat) (b : Bool) (s : SchedState) (h : SchedInv s) :
    SchedInv (onEndStale i b s) := by
  obtain ⟨hA, hB, hC, hD1, hE⟩ := h
  unfold onEndStale
  split
  · apply runEffect_inv
    · exact map_ids_lt _ _ _ (setStatusOf_id _ _) hA
    · rw [map_id_preserved _ (setStatusOf_id _ _)]
      exact hB
    · refine map_speaking_inj _ _ (setStatusOf_id _ _) ?_ hC
      intro a hsa
      rw [setStatusOf_status] at hsa
      split at hsa
      · cases b <;> simp_all
      · exact hsa
    · intro j hl
      have hnosp := hD1 j hl
      intro a ha
      obtain ⟨a0, ha0, rfl⟩ := List.mem_map.mp ha
      by_cases hai : a0.id = i
      · rw [setStatusOf_status, if_pos hai]
        cases b <;> simp
      · rw [setStatusOf_status, if_neg hai]
        exact hnosp a0 ha0
  · exact ⟨hA, hB, hC, hD1, hE⟩

theorem schedInv_onErrorStale (i : Nat) (reason : Option String) (s : SchedState)
    (h : SchedInv s) : SchedInv (onErrorStale i reason s) := by
  obtain ⟨hA, hB, hC, hD1, hE⟩ := h
  unfold onErrorStale
  split
  · have hfid : ∀ a : QueueItem,
        (if a.id = i then
          { a with status := RequestStatus.error,
                   error := some (reason.getD "Unknown error") }
        else a).id = a.id := by
      intro a
      split <;> rfl
    apply runEffect_inv
    · exact map_ids_lt _ _ _ hfid hA
    · rw [map_id_preserved _ hfid]
      exact hB
    · refine map_speaking_inj _ _ hfid ?_ hC
      intro a hsa
      split at hsa
      · simp_all
      · exact hsa
    · intro j hl
      have hnosp := hD1 j hl
      intro a ha
      obtain ⟨a0, ha0, rfl⟩ := List.mem_map.mp ha
      by_cases hai : a0.id = i
      · simp [hai]
      · simp only [hai, if_false]
        exact hnosp a0 ha0
  · exact ⟨hA, hB, hC, hD1, hE⟩

theorem schedInv_step (e : Event) (s : SchedState) (h : SchedInv s) :
    SchedInv (step e s) := by
  cases e with
  | enqueue t v r p vol => exact schedInv_handleAddToQueue t v r p vol s h
  | stop => exact schedInv_handleStop s h
  | pauseResume es ep => exact schedInv_handlePauseResume es ep s h
  | clearCompleted => exact schedInv_handleClearCompleted s h
  | engStart => exact schedInv_onStart s h
  | engEnd b => exact schedInv_onEnd b s h
  | engError r => exact schedInv_onError r s h
  | engEndStale i b => exact schedInv_onEndStale i b s h
  | engErrorStale i r => exact schedInv_onErrorStale i r s h

theorem schedInv_runFrom (evs : List Event) (s : SchedState) (h : SchedInv s) :
    SchedInv (runFrom s evs) := by
  induction evs generalizing s with
  | nil => exact h
  | cons e evs ih => exact ih (step e s) (schedInv_step e s h)

theorem reachable_schedInv {s : SchedState} (h : Reachable s) : SchedInv s := by
  obtain ⟨evs, hevs⟩ := h
  rw [← hevs]
  exact schedInv_runFrom evs initState inv_initState

theorem statusOf_runEffect (s : SchedState) (i : Nat) :
    statusOf (runEffect s) i = statusOf s i := by
  unfold statusOf
  rw [runEffect_queue]

theorem statusOf_eq_of_queue_eq {s₁ s₂ : SchedState} (h : s₁.queue = s₂.queue)
    (i : Nat) : statusOf s₁ i = statusOf s₂ i := by
  unfold statusOf
  rw [h]

theorem handlePauseResume_queue (es ep : Bool) (s : SchedState) :
    ((handlePauseResume es ep s).1).queue = s.queue := by
  unfold handlePauseResume
  split
  · exact runEffect_queue _
  · split
    · exact runEffect_queue _
    · rfl

theorem statusOf_eq_some {s : SchedState} {i : Nat} {st : RequestStatus}
    (h : statusOf s i = some st) :
    ∃ a, s.queue.find? (fun b => b.id == i) = some a ∧ a.status = st ∧
      a.id = i ∧ a ∈ s.queue := by
  unfold statusOf at h
  cases hf : s.queue.find? (fun b => b.id == i) with
  | none => rw [hf] at h; cases h
  | some a =>
      rw [hf] at h
      refine ⟨a, rfl, ?_, ?_, List.mem_of_find?_eq_some hf⟩
      · injection h
      · have hp := List.find?_some hf
        simpa using hp

theorem find?_status_map (f : QueueItem → QueueItem) (hf : ∀ a, (f a).id = a.id)
    (q : List QueueItem) (i : Nat) :
    ((q.map f).find? (fun b => b.id == i)).map QueueItem.status
      = (q.find? (fun b => b.id == i)).map (fun a => (f a).status) := by
  rw [find?_map_id f hf]
  cases q.find? (fun b => b.id == i) <;> rfl

theorem cancelSpeaking_status (a : QueueItem) :
    (cancelSpeaking a).status = if a.status = .speaking then .cancelled else a.status := by
  cases h : a.status <;> simp [cancelSpeaking, RequestStatus.isSpeakingB, h]

/-- C1: In every reachable scheduler state, at most one request in the
queue has status speaking: the dispatch effect only hands an item to the
engine when nothing is speaking, and only the live utterance's start
callback marks an item speaking. -/
theorem spec_C1_at_most_one_speaking (s : SchedState) (h : Reachable s) :
    speakingCount s ≤ 1 := by
  obtain ⟨_, hB, hC, _, _⟩ := reachable_schedInv h
  exact countP_speaking_le_one hB hC

theorem spec_C1_witness :
    speakingCount (runFrom initState [.enqueue "hello" "v" 1 1 1, .engStart]) ≤ 1 :=
  spec_C1_at_most_one_speaking _ ⟨[.enqueue "hello" "v" 1 1 1, .engStart], rfl⟩

theorem pair_of_eq (e : Event) {st st' : RequestStatus} (h : st = st') :
    (st' = .pending → st = .pending) ∧
      (e.isUserCmdB = true → st.isTerminalB = true → st' = st) := by
  subst h
  exact ⟨fun h2 => h2, fun _ _ => rfl⟩

theorem pair_of_nonpending {e : Event} {st st' : RequestStatus}
    (hne : st' ≠ .pending) (hue : e.isUserCmdB = false) :
    (st' = .pending → st = .pending) ∧
      (e.isUserCmdB = true → st.isTerminalB = true → st' = st) :=
  ⟨fun h2 => absurd h2 hne,
   fun hu => absurd (hue.symm.trans hu) Bool.false_ne_true⟩

/-- C2 counterexample: a terminal status does change: stop marks the
speaking request cancelled, but the cancelled utterance's trailing end
callback (still registered after `cancel()`, `page.tsx` lines 104-114)
then fires with the engine idle and rewrites the request to completed. -/
theorem spec_C2_counterexample :
    RequestStatus.cancelled.isTerminalB = true ∧
    statusOf (runFrom initState [.enqueue "A" "v" 1 1 1, .engStart, .stop]) 0
      = some RequestStatus.cancelled ∧
    statusOf (runFrom initState [.enqueue "A" "v" 1 1 1, .engStart, .stop,
        .engEndStale 0 false]) 0
      = some RequestStatus.completed := by
  decide

/-- C2 (amended): no request ever re-enters pending: across any event from
a reachable state, an existing request whose status is not pending never
becomes pending again; and no user command (enqueue, stop, pauseOrResume,
clearCompleted) ever changes a terminal status.  Terminal statuses are not
immutable, though: the trailing end/error callback of an utterance
cancelled by `cancel()` rewrites its request's status by id. -/
theorem spec_C2_amended_no_pending_reentry (s : SchedState) (e : Event)
    (i : Nat) (st st' : RequestStatus) (h : Reachable s)
    (h1 : statusOf s i = some st) (h2 : statusOf (step e s) i = some st') :
    (st' = .pending → st = .pending) ∧
    (e.isUserCmdB = true → st.isTerminalB = true → st' = st) := by
  obtain ⟨_, hB, _, _, _⟩ := reachable_schedInv h
  obtain ⟨a, hfind, hst, haid, hmem⟩ := statusOf_eq_some h1
  cases e with
  | enqueue t v r p vol =>
      have h2a : statusOf (handleAddToQueue t v r p vol s) i = some st' := h2
      unfold handleAddToQueue at h2a
      split at h2a
      · apply pair_of_eq
        rw [h1] at h2a
        injection h2a
      · rw [statusOf_runEffect] at h2a
        have h2b : ((s.queue ++
            [{ id := s.nextId, text := jsTrim t, voiceId := v, rate := r, pitch := p,
               volume := vol, status := RequestStatus.pending,
               error := none : QueueItem }]).find?
            (fun b => b.id == i)).map QueueItem.status = some st' := h2a
        rw [find?_append_q, hfind] at h2b
        have h2e : some a.status = some st' := h2b
        apply pair_of_eq
        injection h2e with h2c
        rw [← hst]
        exact h2c
  | stop =>
      have h2a : statusOf (handleStop s) i = some st' := h2
      unfold handleStop at h2a
      rw [statusOf_runEffect] at h2a
      have h2b : ((s.queue.map cancelSpeaking).find? (fun b => b.id == i)).map
          QueueItem.status = some st' := h2a
      rw [find?_status_map cancelSpeaking cancelSpeaking_id, hfind] at h2b
      rw [Option.map_some', cancelSpeaking_status, hst] at h2b
      injection h2b with h2c
      split at h2c
      · next hsp =>
          rw [hsp, ← h2c]
          decide
      · exact pair_of_eq _ h2c
  | pauseResume es ep =>
      have h2a : statusOf s i = some st' := by
        rw [← statusOf_eq_of_queue_eq (handlePauseResume_queue es ep s) i]
        exact h2
      apply pair_of_eq
      rw [h1] at h2a
      injection h2a
  | clearCompleted =>
      have h2a : statusOf (handleClearCompleted s) i = some st' := h2
      unfold handleClearCompleted at h2a
      rw [statusOf_runEffect] at h2a
      obtain ⟨b, hbfind, hbst, hbid, hbmem⟩ := statusOf_eq_some h2a
      have hbmem2 : b ∈ s.queue := List.mem_of_mem_filter hbmem
      have hab : a = b := mem_id_inj hB hmem hbmem2 (haid.trans hbid.symm)
      apply pair_of_eq
      rw [← hst, ← hbst, hab]
  | engStart =>
      cases hl : s.live with
      | none =>
          have h2a : statusOf s i = some st' := by
            have h2b : statusOf (onStart s) i = some st' := h2
            unfold onStart at h2b
            rw [hl] at h2b
            exact h2b
          apply pair_of_eq
          rw [h1] at h2a
          injection h2a
      | some pr =>
          obtain ⟨i0, br⟩ := pr
          cases br with
          | true =>
              have h2a : statusOf s i = some st' := by
                have h2b : statusOf (onStart s) i = some st' := h2
                unfold onStart at h2b
                rw [hl] at h2b
                exact h2b
              apply pair_of_eq
              rw [h1] at h2a
              injection h2a
          | false =>
              have h2a : statusOf (onStart s) i = some st' := h2
              unfold onStart at h2a
              rw [hl] at h2a
              have h2b : statusOf (runEffect { s with
                  queue := s.queue.map (setStatusOf i0 .speaking),
                  live := some (i0, true) }) i = some st' := h2a
              rw [statusOf_runEffect] at h2b
              have h2c : ((s.queue.map (setStatusOf i0 .speaking)).find?
                  (fun b => b.id == i)).map QueueItem.status = some st' := h2b
              rw [find?_status_map _ (setStatusOf_id i0 .speaking), hfind,
                Option.map_some', setStatusOf_status] at h2c
              injection h2c with h2d
              by_cases hai : a.id = i0
              · rw [if_pos hai] at h2d
                exact pair_of_nonpending (by rw [← h2d]; decide) rfl
              · rw [if_neg hai] at h2d
                apply pair_of_eq
                rw [← hst, ← h2d]
  | engEnd eb =>
      cases hl : s.live with
      | none =>
          have h2a : statusOf s i = some st' := by
            have h2b : statusOf (onEnd eb s) i = some st' := h2
            unfold onEnd at h2b
            rw [hl] at h2b
            exact h2b
          apply pair_of_eq
          rw [h1] at h2a
          injection h2a
      | some pr =>
          obtain ⟨i0, br⟩ := pr
          have h2a : statusOf (onEnd eb s) i = some st' := h2
          unfold onEnd at h2a
          rw [hl] at h2a
          have h2b : statusOf (runEffect { s with
              queue := s.queue.map
                (setStatusOf i0 (if eb then .cancelled else .completed)),
              live := none, isPaused := false }) i = some st' := h2a
          rw [statusOf_runEffect] at h2b
          have h2c : ((s.queue.map
              (setStatusOf i0 (if eb then .cancelled else .completed))).find?
              (fun b => b.id == i)).map QueueItem.status = some st' := h2b
          rw [find?_status_map _ (setStatusOf_id i0 _), hfind,
            Option.map_some', setStatusOf_status] at h2c
          injection h2c with h2d
          by_cases hai : a.id = i0
          · rw [if_pos hai] at h2d
            exact pair_of_nonpending (by rw [← h2d]; cases eb <;> decide) rfl
          · rw [if_neg hai] at h2d
            apply pair_of_eq
            rw [← hst, ← h2d]
  | engError reason =>
      cases hl : s.live with
      | none =>
          have h2a : statusOf s i = some st' := by
            have h2b : statusOf (onError reason s) i = some st' := h2
            unfold onError at h2b
            rw [hl] at h2b
            exact h2b
          apply pair_of_eq
          rw [h1] at h2a
          injection h2a
      | some pr =>
          obtain ⟨i0, br⟩ := pr
          have h2a : statusOf (onError reason s) i = some st' := h2
          unfold onError at h2a
          rw [hl] at h2a
          have hfid : ∀ b : QueueItem,
              ((fun b : QueueItem =>
                if b.id = i0 then
                  { b with status := RequestStatus.error,
                           error := some (reason.getD "Unknown error") }
                else b) b).id = b.id := by
            intro b
            dsimp only
            split <;> rfl
          have h2b : statusOf (runEffect { s with
              queue := s.queue.map (fun b =>
                if b.id = i0 then
                  { b with status := RequestStatus.error,
                           error := some (reason.getD "Unknown error") }
                else b),
              live := none, isPaused := false }) i = some st' := h2a
          rw [statusOf_runEffect] at h2b
          have h2c : ((s.queue.map (fun b =>
              if b.id = i0 then
                { b with status := RequestStatus.error,
                         error := some (reason.getD "Unknown error") }
              else b)).find? (fun b => b.id == i)).map QueueItem.status
              = some st' := h2b
          rw [find?_status_map _ hfid, hfind, Option.map_some'] at h2c
          injection h2c with h2d
          by_cases hai : a.id = i0
          · rw [if_pos hai] at h2d
            have h2e : RequestStatus.error = st' := h2d
            exact pair_of_nonpending (by rw [← h2e]; decide) rfl
          · rw [if_neg hai] at h2d
            apply pair_of_eq
            rw [← hst, ← h2d]
  | engEndStale i0 eb =>
      have h2a : statusOf (onEndStale i0 eb s) i = some st' := h2
      unfold onEndStale at h2a
      split at h2a
      · rw [statusOf_runEffect] at h2a
        have h2c : ((s.queue.map
            (setStatusOf i0 (if eb then .cancelled else .completed))).find?
            (fun b => b.id == i)).map QueueItem.status = some st' := h2a
        rw [find?_status_map _ (setStatusOf_id i0 _), hfind,
          Option.map_some', setStatusOf_status] at h2c
        injection h2c with h2d
        by_cases hai : a.id = i0
        · rw [if_pos hai] at h2d
          exact pair_of_nonpending (by rw [← h2d]; cases eb <;> decide) rfl
        · rw [if_neg hai] at h2d
          apply pair_of_eq
          rw [← hst, ← h2d]
      · apply pair_of_eq
        rw [h1] at h2a
        injection h2a
  | engErrorStale i0 reason =>
      have h2a : statusOf (onErrorStale i0 reason s) i = some st' := h2
      unfold onErrorStale at h2a
      split at h2a
      · have hfid : ∀ b : QueueItem,
            ((fun b : QueueItem =>
              if b.id = i0 then
                { b with status := RequestStatus.error,
                         error := some (reason.getD "Unknown error") }
              else b) b).id = b.id := by
          intro b
          dsimp only
          split <;> rfl
        rw [statusOf_runEffect] at h2a
        have h2c : ((s.queue.map (fun b =>
            if b.id = i0 then
              { b with status := RequestStatus.error,
                       error := some (reason.getD "Unknown error") }
            else b)).find? (fun b => b.id == i)).map QueueItem.status
            = some st' := h2a
        rw [find?_status_map _ hfid, hfind, Option.map_some'] at h2c
        injection h2c with h2d
        by_cases hai : a.id = i0
        · rw [if_pos hai] at h2d
          have h2e : RequestStatus.error = st' := h2d
          exact pair_of_nonpending (by rw [← h2e]; decide) rfl
        · rw [if_neg hai] at h2d
          apply pair_of_eq
          rw [← hst, ← h2d]
      · apply pair_of_eq
        rw [h1] at h2a
        injection h2a

theorem spec_C2_amended_witness :
    (RequestStatus.pending = RequestStatus.pending →
      RequestStatus.pending = RequestStatus.pending) ∧
    (Event.clearCompleted.isUserCmdB = true →
      RequestStatus.pending.isTerminalB = true →
      RequestStatus.pending = RequestStatus.pending) :=
  spec_C2_amended_no_pending_reentry
    (runFrom initState [.enqueue "hello" "v" 1 1 1])
    Event.clearCompleted 0 RequestStatus.pending RequestStatus.pending
    ⟨[.enqueue "hello" "v" 1 1 1], rfl⟩ (by decide) (by decide)

/-- C3 counterexample: `handleAddToQueue` stores out-of-range prosody
parameters unchanged: with rate 5, pitch -1 and volume 3/2 the stored
request does not hold the clamped values 2, 0 and 1 the claim asserts,
but the raw inputs. -/
theorem spec_C3_counterexample :
    ((handleAddToQueue "hello" "v" 5 (-1) (3/2) initState).queue.map
        QueueItem.rate ≠ [2] ∧
      (handleAddToQueue "hello" "v" 5 (-1) (3/2) initState).queue.map
        QueueItem.rate = [5]) ∧
    ((handleAddToQueue "hello" "v" 5 (-1) (3/2) initState).queue.map
        QueueItem.pitch ≠ [0] ∧
      (handleAddToQueue "hello" "v" 5 (-1) (3/2) initState).queue.map
        QueueItem.pitch = [-1]) ∧
    ((handleAddToQueue "hello" "v" 5 (-1) (3/2) initState).queue.map
        QueueItem.volume ≠ [1] ∧
      (handleAddToQueue "hello" "v" 5 (-1) (3/2) initState).queue.map
        QueueItem.volume = [3/2]) := by
  have hr : (handleAddToQueue "hello" "v" 5 (-1) (3/2) initState).queue.map
      QueueItem.rate = [5] := rfl
  have hpi : (handleAddToQueue "hello" "v" 5 (-1) (3/2) initState).queue.map
      QueueItem.pitch = [-1] := rfl
  have hv : (handleAddToQueue "hello" "v" 5 (-1) (3/2) initState).queue.map
      QueueItem.volume = [3/2] := rfl
  refine ⟨⟨?_, hr⟩, ⟨?_, hpi⟩, ⟨?_, hv⟩⟩
  · rw [hr]
    intro hc
    injection hc with h1 h2
    norm_num at h1
  · rw [hpi]
    intro hc
    injection hc with h1 h2
    norm_num at h1
  · rw [hv]
    intro hc
    injection hc with h1 h2
    norm_num at h1

/-- C3 (amended): enqueue performs no clamping: for any non-empty trimmed
text the appended request stores the given rate, pitch and volume
verbatim (range enforcement exists only in the UI slider bounds). -/
theorem spec_C3_amended_stores_verbatim (t v : String) (r p vol : Rat)
    (s : SchedState) (ht : (jsTrim t).isEmpty = false) :
    (handleAddToQueue t v r p vol s).queue
      = s.queue ++ [{ id := s.nextId, text := jsTrim t, voiceId := v, rate := r,
                      pitch := p, volume := vol, status := .pending,
                      error := none }] := by
  unfold handleAddToQueue
  rw [ht]
  rw [if_neg Bool.false_ne_true]
  exact runEffect_queue _

theorem spec_C3_amended_witness :
    ((jsTrim "hello").isEmpty = false) ∧
      (handleAddToQueue "hello" "v" 5 (-1) (3/2) initState).queue
        = initState.queue ++ [{ id := initState.nextId, text := jsTrim "hello",
                                 voiceId := "v", rate := 5, pitch := -1,
                                 volume := 3/2, status := .pending,
                                 error := none }] :=
  ⟨by decide,
    spec_C3_amended_stores_verbatim "hello" "v" 5 (-1) (3/2) initState (by decide)⟩

/-- C4: enqueue of text whose trim is empty is a no-op: the scheduler state
(queue included) is unchanged and no request is created. -/
theorem spec_C4_empty_text_noop (t v : String) (r p vol : Rat) (s : SchedState)
    (ht : (jsTrim t).isEmpty = true) :
    handleAddToQueue t v r p vol s = s := by
  unfold handleAddToQueue
  rw [ht]
  rw [if_pos rfl]

theorem spec_C4_witness :
    ((jsTrim "   ").isEmpty = true) ∧
      handleAddToQueue "   " "v" 1 1 1 initState = initState :=
  ⟨by decide, spec_C4_empty_text_noop "   " "v" 1 1 1 initState (by decide)⟩

/-- C5: clearCompleted keeps exactly the pending and speaking requests, in
their original relative order (the survivors form a sublist of the queue);
on statuses [completed, speaking, error, pending] the survivors'
statuses are [speaking, pending]. -/
theorem spec_C5_clearCompleted :
    (∀ s : SchedState, List.Sublist (handleClearCompleted s).queue s.queue ∧
      ∀ a : QueueItem, a ∈ (handleClearCompleted s).queue ↔
        (a ∈ s.queue ∧ (a.status = .pending ∨ a.status = .speaking))) ∧
    (handleClearCompleted
        { queue := [{ id := 0, text := "a", voiceId := "v", rate := 1, pitch := 1,
                      volume := 1, status := .completed, error := none },
                    { id := 1, text := "b", voiceId := "v", rate := 1, pitch := 1,
                      volume := 1, status := .speaking, error := none },
                    { id := 2, text := "c", voiceId := "v", rate := 1, pitch := 1,
                      volume := 1, status := .error, error := none },
                    { id := 3, text := "d", voiceId := "v", rate := 1, pitch := 1,
                      volume := 1, status := .pending, error := none }],
          isPaused := false, live := some (1, true),
          nextId := 4 }).queue.map QueueItem.status
      = [.speaking, .pending] := by
  constructor
  · intro s
    have hq : (handleClearCompleted s).queue = s.queue.filter keepInClear := by
      unfold handleClearCompleted
      exact runEffect_queue _
    constructor
    · rw [hq]
      exact List.filter_sublist _
    · intro a
      rw [hq, List.mem_filter, keepInClear_eq_true]
  · decide

/-- C6: stop is idempotent on the observable scheduler state: a second stop
with no events in between leaves the queue and the paused flag exactly as
after the first; on an empty queue stop leaves the queue unchanged. -/
theorem spec_C6_stop_idempotent (s : SchedState) :
    ((handleStop (handleStop s)).queue = (handleStop s).queue ∧
      (handleStop (handleStop s)).isPaused = (handleStop s).isPaused) ∧
    (s.queue = [] → (handleStop s).queue = s.queue) := by
  have hq : ∀ u : SchedState, (handleStop u).queue = u.queue.map cancelSpeaking := by
    intro u
    unfold handleStop
    exact runEffect_queue _
  have hp : ∀ u : SchedState, (handleStop u).isPaused = false := by
    intro u
    unfold handleStop
    rw [runEffect_isPaused]
  have hid : ∀ a : QueueItem, cancelSpeaking (cancelSpeaking a) = cancelSpeaking a := by
    intro a
    cases h : a.status <;> simp [cancelSpeaking, RequestStatus.isSpeakingB, h]
  have hmapid : ∀ q : List QueueItem,
      (q.map cancelSpeaking).map cancelSpeaking = q.map cancelSpeaking := by
    intro q
    induction q with
    | nil => rfl
    | cons a l ih => simp only [List.map_cons, hid a, ih]
  refine ⟨⟨?_, ?_⟩, ?_⟩
  · rw [hq (handleStop s), hq s, hmapid]
  · rw [hp, hp]
  · intro he
    rw [hq s, he]
    rfl

theorem spec_C6_witness :
    (initState.queue = []) ∧
      ((handleStop (handleStop initState)).queue = (handleStop initState).queue) ∧
      ((handleStop initState).queue = initState.queue) :=
  ⟨rfl, (spec_C6_stop_idempotent initState).1.1,
    (spec_C6_stop_idempotent initState).2 rfl⟩

/-- C7: dispatch is strictly FIFO among pending items: in every reachable
state with no speaking request and playback not paused, the live utterance
handed to the engine is exactly the earliest pending request in queue
order (and no other). -/
theorem spec_C7_fifo_dispatch (s : SchedState) (p : QueueItem) (h : Reachable s)
    (hnosp : ∀ a ∈ s.queue, a.status ≠ .speaking) (hp : s.isPaused = false)
    (hfind : s.queue.find? (fun a => a.status.isPendingB) = some p) :
    s.live = some (p.id, false) ∧ p ∈ s.queue ∧ p.status = .pending := by
  obtain ⟨_, _, _, _, hE⟩ := reachable_schedInv h
  refine ⟨hE p hnosp hp hfind, List.mem_of_find?_eq_some hfind, ?_⟩
  have hpend : p.status.isPendingB = true := by
    have h3 := List.find?_some hfind
    simpa using h3
  exact isPendingB_eq_true.mp hpend

theorem spec_C7_witness :
    ((runFrom initState [.enqueue "A" "v" 1 1 1, .enqueue "B" "v" 1 1 1,
        .enqueue "C" "v" 1 1 1]).live = some (0, false)) ∧
    ((runFrom initState [.enqueue "A" "v" 1 1 1, .enqueue "B" "v" 1 1 1,
        .enqueue "C" "v" 1 1 1, .engStart, .engEnd false]).live
      = some (1, false)) ∧
    ((runFrom initState [.enqueue "A" "v" 1 1 1, .enqueue "B" "v" 1 1 1,
        .enqueue "C" "v" 1 1 1, .engStart, .engEnd false, .engStart,
        .engEnd false]).live = some (2, false)) :=
  ⟨(spec_C7_fifo_dispatch _ ⟨0, "A", "v", 1, 1, 1, .pending, none⟩
      ⟨_, rfl⟩ (by decide) (by decide) (by decide)).1,
   (spec_C7_fifo_dispatch _ ⟨1, "B", "v", 1, 1, 1, .pending, none⟩
      ⟨_, rfl⟩ (by decide) (by decide) (by decide)).1,
   (spec_C7_fifo_dispatch _ ⟨2, "C", "v", 1, 1, 1, .pending, none⟩
      ⟨_, rfl⟩ (by decide) (by decide) (by decide)).1⟩

/-- C8: when the end callback fires for the live utterance of request i,
that request's status becomes cancelled if the engine still reports
speaking at callback time, completed otherwise, and in both cases the
paused flag is cleared. -/
theorem spec_C8_onEnd (s : SchedState) (i : Nat) (br : Bool) (es : Bool)
    (a : QueueItem) (hl : s.live = some (i, br))
    (hfind : s.queue.find? (fun b => b.id == i) = some a) :
    statusOf (onEnd es s) i
        = some (if es then RequestStatus.cancelled else RequestStatus.completed) ∧
      (onEnd es s).isPaused = false := by
  have haid : a.id = i := by
    have h3 := List.find?_some hfind
    simpa using h3
  have key : statusOf (runEffect { s with
      queue := s.queue.map
        (setStatusOf i (if es then RequestStatus.cancelled else RequestStatus.completed)),
      live := none, isPaused := false }) i
      = some (if es then RequestStatus.cancelled else RequestStatus.completed) := by
    rw [statusOf_runEffect]
    have h2 : ((s.queue.map
        (setStatusOf i (if es then RequestStatus.cancelled else RequestStatus.completed))).find?
        (fun b => b.id == i)).map QueueItem.status
        = some (if es then RequestStatus.cancelled else RequestStatus.completed) := by
      rw [find?_status_map _ (setStatusOf_id i _), hfind, Option.map_some',
        setStatusOf_status, if_pos haid]
    exact h2
  have key2 : (runEffect { s with
      queue := s.queue.map
        (setStatusOf i (if es then RequestStatus.cancelled else RequestStatus.completed)),
      live := none, isPaused := false }).isPaused = false := by
    rw [runEffect_isPaused]
  constructor
  · unfold onEnd
    rw [hl]
    exact key
  · unfold onEnd
    rw [hl]
    exact key2

theorem spec_C8_witness :
    (statusOf (onEnd true { queue := [{ id := 0, text := "hi", voiceId := "v",
                                        rate := 1, pitch := 1, volume := 1,
                                        status := .speaking, error := none }],
                            isPaused := false, live := some (0, true),
                            nextId := 1 }) 0
      = some RequestStatus.cancelled) ∧
    ((onEnd true { queue := [{ id := 0, text := "hi", voiceId := "v",
                               rate := 1, pitch := 1, volume := 1,
                               status := .speaking, error := none }],
                   isPaused := false, live := some (0, true),
                   nextId := 1 }).isPaused
      = false) :=
  spec_C8_onEnd _ 0 true true
    ⟨0, "hi", "v", 1, 1, 1, .speaking, none⟩ rfl (by decide)

/-- C9: pauseOrResume is a toggle driven by the engine-reported flags:
engine speaking and not paused invokes pause and sets the scheduler's
paused flag; engine paused invokes resume and clears the flag; in every
other engine state nothing changes. -/
theorem spec_C9_pause_resume_toggle (es ep : Bool) (s : SchedState) :
    (es = true → ep = false →
      (handlePauseResume es ep s).1.isPaused = true ∧
      (handlePauseResume es ep s).2 = some EngineCmd.pause) ∧
    (ep = true →
      (handlePauseResume es ep s).1.isPaused = false ∧
      (handlePauseResume es ep s).2 = some EngineCmd.resume) ∧
    (es = false → ep = false → handlePauseResume es ep s = (s, none)) := by
  cases es <;> cases ep <;>
    simp [handlePauseResume, runEffect_isPaused]

theorem spec_C9_witness :
    ((handlePauseResume true false initState).1.isPaused = true ∧
      (handlePauseResume true false initState).2 = some EngineCmd.pause) ∧
    ((handlePauseResume false true initState).1.isPaused = false ∧
      (handlePauseResume false true initState).2 = some EngineCmd.resume) ∧
    (handlePauseResume false false initState = (initState, none)) :=
  ⟨(spec_C9_pause_resume_toggle true false initState).1 rfl rfl,
   (spec_C9_pause_resume_toggle false true initState).2.1 rfl,
   (spec_C9_pause_resume_toggle false false initState).2.2 rfl rfl⟩

/-- C10: pauseOrResume never modifies the request list: whatever the
engine-reported flags, the queue (all requests with their ids, texts,
statuses and prosody parameters, in order) is unchanged. -/
theorem spec_C10_pause_resume_frame (es ep : Bool) (s : SchedState) :
    ((handlePauseResume es ep s).1).queue = s.queue :=
  handlePauseResume_queue es ep s
